import Mathlib

/-!
Shallow embedding of the `idgit` library (src/lib.rs, src/file.rs, src/diff.rs,
src/repo.rs) and proofs about its delta classification, single-path diff
extraction, staging commands and undo/redo history.

The external git backend (the `git2` crate) is modelled at its boundary: a
diff traversal is a list of events (a delta together with its line records, or
a backend failure), the HEAD resolution is an `Except` value, and the staging
index is a list of paths together with an ignore-rule predicate.
-/

deriving instance DecidableEq for Except

namespace Idgit

/-! ## Backend boundary types (git2) -/

/-- Error codes of the backend we distinguish: `user` is the
user-callback-abort code (GIT_EUSER), `unbornBranch` the no-commits-yet code;
all other codes are collapsed into `other`. -/
inductive ErrorCode where
  | user
  | unbornBranch
  | other
deriving DecidableEq

/-- A backend (`git2`) error, identified by its code. -/
structure Git2Error where
  code : ErrorCode
deriving DecidableEq

/-- A resolved baseline tree of the backend. -/
structure Tree where
  id : Nat
deriving DecidableEq

/-- One side of a raw backend change record (`git2::DiffFile`): an object id
(0 meaning the null id), an optional relative path and a size. -/
structure DiffFile where
  id : Nat
  path : Option String
  size : Nat
deriving DecidableEq

/-- The status tag of a raw backend change record (`git2::Delta`). -/
inductive DeltaStatus where
  | added
  | deleted
  | modified
  | renamed
  | copied
  | ignored
  | untracked
  | typechange
  | unreadable
  | unmodified
  | conflicted
deriving DecidableEq

/-- A raw backend change record (`git2::DiffDelta`): a status tag, the number
of sides the record offers (`nfiles`), and the old and new sides. -/
structure DiffDelta where
  status : DeltaStatus
  nfiles : Nat
  old_file : DiffFile
  new_file : DiffFile
deriving DecidableEq

/-- The origin tag of one diff line record (`git2::DiffLineType`). -/
inductive DiffLineType where
  | context
  | addition
  | deletion
  | contextEOFNL
  | addEOFNL
  | deleteEOFNL
  | fileHeader
  | hunkHeader
  | binary
deriving DecidableEq

/-- A raw backend line record (`git2::DiffLine`). -/
structure DiffLine where
  old_lineno : Option Nat
  new_lineno : Option Nat
  num_lines : Nat
  content_offset : Int
  content : List Nat
  origin : DiffLineType
deriving DecidableEq

/-- One event of a backend diff traversal: either a visited delta together
with the line records the backend emits for it, or a backend failure arising
mid-traversal. -/
inductive DiffEvent where
  | delta (d : DiffDelta) (ls : List DiffLine)
  | backendFailure (e : Git2Error)
deriving DecidableEq

/-- A fatal invariant violation (a Rust panic): a failed `assert_eq!` or the
`unreachable!` arm of the classifier. -/
inductive Panic where
  | assertFailed
  | unreachableUnmodified
deriving DecidableEq

/-! ## src/file.rs -/

/-- `File` from src/file.rs: identity of one side of a changed path. -/
structure File where
  id : Option Nat
  rel_path : Option String
  size : Nat
deriving DecidableEq

/-- `File::from_diff_file`: a zero object id becomes `none`. -/
def File.from_diff_file (f : DiffFile) : File :=
  ⟨if f.id = 0 then none else some f.id, f.path, f.size⟩

/-! ## src/lib.rs : the library error type -/

/-- The library error type (`idgit::Error`), restricted to the variants the
embedded operations produce. -/
inductive Error where
  | Git2 (e : Git2Error)
  | MissingPath (f : File)
  | MissingId (f : File)
  | PathNotFound (p : String)
  | UndoEmpty
  | RedoEmpty
deriving DecidableEq

/-- `File::rel_path_required` from src/file.rs. -/
def File.rel_path_required (f : File) : Except Error String :=
  match f.rel_path with
  | some p => Except.ok p
  | none => Except.error (Error.MissingPath f)

/-! ## src/diff.rs : the classifier -/

/-- `Meta` from src/diff.rs: the Delta classification. -/
inductive Meta where
  | Added (new : File)
  | Deleted (old : File)
  | Modified (old new : File)
  | Renamed (old new : File)
  | Copied (old new : File)
  | Ignored (new : File)
  | Untracked (new : File)
  | Typechange (old new : File)
  | Unreadable (new : File)
  | Conflicted (old new : File)
deriving DecidableEq

/-- `Meta::get_new_file_only`: asserts the record offers exactly one side,
then takes the new side. -/
def Meta.get_new_file_only (f : DiffDelta) : Except Panic File :=
  if f.nfiles = 1 then Except.ok (File.from_diff_file f.new_file)
  else Except.error Panic.assertFailed

/-- `Meta::get_old_file_only`: asserts the record offers exactly one side,
then takes the old side. -/
def Meta.get_old_file_only (f : DiffDelta) : Except Panic File :=
  if f.nfiles = 1 then Except.ok (File.from_diff_file f.old_file)
  else Except.error Panic.assertFailed

/-- `Meta::get_both_files`: asserts the record offers exactly two sides,
then takes both. -/
def Meta.get_both_files (f : DiffDelta) : Except Panic (File × File) :=
  if f.nfiles = 2 then
    Except.ok (File.from_diff_file f.old_file, File.from_diff_file f.new_file)
  else Except.error Panic.assertFailed

/-- `Meta::from_git2` from src/diff.rs: the classifier. A Rust panic
(`assert_eq!` failure or the `unreachable!` arm for `Unmodified`) is the
`Except.error` case. -/
def Meta.from_git2 (d : DiffDelta) : Except Panic Meta :=
  match d.status with
  | DeltaStatus.added => (Meta.get_new_file_only d).map Meta.Added
  | DeltaStatus.deleted => (Meta.get_old_file_only d).map Meta.Deleted
  | DeltaStatus.modified =>
      (Meta.get_both_files d).map fun p => Meta.Modified p.1 p.2
  | DeltaStatus.renamed =>
      (Meta.get_both_files d).map fun p => Meta.Renamed p.1 p.2
  | DeltaStatus.copied =>
      (Meta.get_both_files d).map fun p => Meta.Copied p.1 p.2
  | DeltaStatus.ignored => (Meta.get_new_file_only d).map Meta.Ignored
  | DeltaStatus.untracked => (Meta.get_new_file_only d).map Meta.Untracked
  | DeltaStatus.typechange =>
      (Meta.get_both_files d).map fun p => Meta.Typechange p.1 p.2
  | DeltaStatus.unreadable => (Meta.get_new_file_only d).map Meta.Unreadable
  | DeltaStatus.unmodified => Except.error Panic.unreachableUnmodified
  | DeltaStatus.conflicted =>
      (Meta.get_both_files d).map fun p => Meta.Conflicted p.1 p.2

/-- `Line` from src/diff.rs. -/
structure Line where
  old_lineno : Option Nat
  new_lineno : Option Nat
  num_lines : Nat
  content_offset : Int
  content : List Nat
  origin : DiffLineType
deriving DecidableEq

/-- `Line::from_git2` from src/diff.rs. -/
def Line.from_git2 (l : DiffLine) : Line :=
  ⟨l.old_lineno, l.new_lineno, l.num_lines, l.content_offset, l.content, l.origin⟩

/-- `Details` from src/diff.rs (`Details::new` is the constructor). -/
structure Details where
  meta : Meta
  lines : List Line
deriving DecidableEq

/-! ## src/repo.rs : Internal — baseline resolution and diff traversal -/

/-- Diff traversal options (`git2::DiffOptions`), restricted to the flags the
code sets. -/
structure DiffOptions where
  include_untracked : Bool
  include_typechange : Bool
  include_unmodified : Bool
  include_unreadable : Bool
  include_ignored : Bool
  pathspec : Option String
deriving DecidableEq

/-- `opts.pathspec(path)` on an options value. -/
def DiffOptions.withPathspec (o : DiffOptions) (p : String) : DiffOptions :=
  ⟨o.include_untracked, o.include_typechange, o.include_unmodified,
   o.include_unreadable, o.include_ignored, some p⟩

/-- `Internal::uncommitted_opts` from src/repo.rs: the net result of the
builder chain (untracked, typechange, unreadable and ignored entries included,
unmodified entries excluded, no pathspec). -/
def Internal.uncommitted_opts : DiffOptions :=
  ⟨true, true, false, true, true, none⟩

/-- `Internal::head` from src/repo.rs, as a function of the backend's
`head().peel_to_commit().tree()` outcome: the unborn-branch code becomes an
empty baseline (`none`), every other error is propagated. -/
def Internal.head (r : Except Git2Error Tree) : Except Error (Option Tree) :=
  match r with
  | Except.ok t => Except.ok (some t)
  | Except.error e =>
      if e.code = ErrorCode.unbornBranch then Except.ok none
      else Except.error (Error.Git2 e)

/-- `Internal::uncommitted_files` from src/repo.rs, as a function of the
backend head outcome and of the backend diff (which receives the baseline and
the options and yields the delta stream). -/
def Internal.uncommitted_files (headRes : Except Git2Error Tree)
    (backendDiff : Option Tree → DiffOptions → List DiffDelta) :
    Except Panic (Except Error (List Meta)) :=
  match Internal.head headRes with
  | Except.error e => Except.ok (Except.error e)
  | Except.ok h =>
      match (backendDiff h Internal.uncommitted_opts).mapM Meta.from_git2 with
      | Except.ok ms => Except.ok (Except.ok ms)
      | Except.error p => Except.error p

/-- `Internal::delta_path` from src/repo.rs: the new side's path when
present, otherwise the old side's path. -/
def Internal.delta_path (d : DiffDelta) : Option String :=
  match d.new_file.path with
  | some p => some p
  | none => d.old_file.path

/-- The `file_cb` closure of `Internal::_diff_details`, with its captured
`meta` state made explicit. Returns the new state and the continue flag
(`true` = continue, `false` = abort the traversal). At a matching delta the
classifier runs (a malformed record panics). -/
def Internal.file_cb (target : String) (meta : Option Meta) (delta : DiffDelta) :
    Except Panic (Option Meta × Bool) :=
  match Internal.delta_path delta with
  | some dp =>
      if dp = target then
        match Meta.from_git2 delta with
        | Except.ok m => Except.ok (some m, true)
        | Except.error p => Except.error p
      else Except.ok (meta, meta.isNone)
  | none => Except.ok (meta, meta.isNone)

/-- The `line_cb` closure of `Internal::_diff_details`, with its captured
`lines` state made explicit. Appends the converted line exactly when the
currently-processing delta's path equals the target; always continues. -/
def Internal.line_cb (target : String) (lines : List Line) (delta : DiffDelta)
    (line : DiffLine) : List Line × Bool :=
  match Internal.delta_path delta with
  | some dp =>
      if dp = target then (lines ++ [Line.from_git2 line], true)
      else (lines, true)
  | none => (lines, true)

/-- The backend invoking `line_cb` on each line record of the delta it is
currently processing, stopping if the callback asks to (it never does). -/
def Internal.run_lines (target : String) (delta : DiffDelta) :
    List DiffLine → List Line → List Line × Bool
  | [], acc => (acc, true)
  | l :: rest, acc =>
      match Internal.line_cb target acc delta l with
      | (acc', true) => Internal.run_lines target delta rest acc'
      | (acc', false) => (acc', false)

/-- The backend's `Diff::foreach` over the event stream: for each visited
delta `file_cb` runs first and, if it continues, the delta's line records are
fed to `line_cb`; a callback asking to stop aborts the traversal with the
user-callback-abort code; a backend failure event ends the traversal with
that error. Returns the final captured state and the traversal outcome. -/
def Internal.foreach (target : String) :
    List DiffEvent → Option Meta → List Line →
    Except Panic (Option Meta × List Line × Except Git2Error Unit)
  | [], meta, lines => Except.ok (meta, lines, Except.ok ())
  | DiffEvent.backendFailure e :: _, meta, lines =>
      Except.ok (meta, lines, Except.error e)
  | DiffEvent.delta d ls :: rest, meta, lines =>
      match Internal.file_cb target meta d with
      | Except.error p => Except.error p
      | Except.ok (meta', false) =>
          Except.ok (meta', lines, Except.error ⟨ErrorCode.user⟩)
      | Except.ok (meta', true) =>
          match Internal.run_lines target d ls lines with
          | (lines', true) => Internal.foreach target rest meta' lines'
          | (lines', false) =>
              Except.ok (meta', lines', Except.error ⟨ErrorCode.user⟩)

/-- The tail of `Internal::_diff_details` after the traversal: `meta` is
required (`PathNotFound` otherwise) and the details are assembled. -/
def Internal.finish (target : String) (meta : Option Meta) (lines : List Line) :
    Except Panic (Except Error Details) :=
  match meta with
  | some m => Except.ok (Except.ok (Details.mk m lines))
  | none => Except.ok (Except.error (Error.PathNotFound target))

/-- The traversal core of `Internal::_diff_details` from src/repo.rs: run
`foreach` with empty captured state, swallow the user-callback-abort code,
propagate any other traversal error, then require a captured `meta`. -/
def Internal.diff_details_run (target : String) (events : List DiffEvent) :
    Except Panic (Except Error Details) :=
  match Internal.foreach target events none [] with
  | Except.error p => Except.error p
  | Except.ok (meta, lines, r) =>
      match r with
      | Except.ok _ => Internal.finish target meta lines
      | Except.error e =>
          if e.code = ErrorCode.user then Internal.finish target meta lines
          else Except.ok (Except.error (Error.Git2 e))

/-- `Internal::_diff_details` from src/repo.rs: resolve the baseline via
`head`, configure the uncommitted options with the target as pathspec, and
run the traversal core over the backend-produced event stream. -/
def Internal.diff_details_for_path (headRes : Except Git2Error Tree)
    (backendDiff : Option Tree → DiffOptions → List DiffEvent)
    (path : String) : Except Panic (Except Error Details) :=
  match Internal.head headRes with
  | Except.error e => Except.ok (Except.error e)
  | Except.ok h =>
      Internal.diff_details_run path
        (backendDiff h (Internal.uncommitted_opts.withPathspec path))

/-- `Internal::diff_details` from src/repo.rs: pick the `File` the target
path is taken from (the single side of one-sided variants, the new side of
two-sided variants), require its relative path, and extract. -/
def Internal.diff_details (headRes : Except Git2Error Tree)
    (backendDiff : Option Tree → DiffOptions → List DiffEvent)
    (meta : Meta) : Except Panic (Except Error Details) :=
  match meta with
  | Meta.Added f | Meta.Deleted f | Meta.Modified _ f | Meta.Renamed _ f
  | Meta.Copied _ f | Meta.Ignored f | Meta.Untracked f
  | Meta.Typechange _ f | Meta.Unreadable f | Meta.Conflicted _ f =>
      match File.rel_path_required f with
      | Except.error e => Except.ok (Except.error e)
      | Except.ok path => Internal.diff_details_for_path headRes backendDiff path

/-! ## src/repo.rs : staging commands over the backend index -/

/-- The mutable backend state the staging commands touch: the staging index
(a set of relative paths) and the backend's ignore-rule query
(`status_should_ignore`). -/
structure Git where
  index : List String
  ignore : String → Bool

/-- The backend's add-path-to-index mutation (`Index::add_path`): the index
is a set of paths. -/
def Internal.addPath (index : List String) (p : String) : List String :=
  if p ∈ index then index else index ++ [p]

/-- The backend's remove-path-from-index mutation (`Index::remove_path`). -/
def Internal.removePath (index : List String) (p : String) : List String :=
  index.filter fun q => q != p

/-- `Internal::stage_file` from src/repo.rs: require the relative path; if
the ignore rules match it, only log and leave the state unchanged; otherwise
add the path to the index. -/
def Internal.stage_file (git : Git) (file : File) : Except Error Git :=
  match File.rel_path_required file with
  | Except.error e => Except.error e
  | Except.ok path =>
      if git.ignore path then Except.ok git
      else Except.ok (Git.mk (Internal.addPath git.index path) git.ignore)

/-- `Internal::unstage_file` from src/repo.rs: require the relative path and
remove it from the index, with no ignore-rule guard. -/
def Internal.unstage_file (git : Git) (file : File) : Except Error Git :=
  match File.rel_path_required file with
  | Except.error e => Except.error e
  | Except.ok path =>
      Except.ok (Git.mk (Internal.removePath git.index path) git.ignore)

/-- `Change` from src/repo.rs: the two invertible staging commands. -/
inductive Change where
  | StageFile (f : File)
  | UnstageFile (f : File)
deriving DecidableEq

/-- `undo::Action::apply` for `Change` (src/repo.rs): forward action. -/
def Change.apply : Change → Git → Except Error Git
  | Change.StageFile f, git => Internal.stage_file git f
  | Change.UnstageFile f, git => Internal.unstage_file git f

/-- `undo::Action::undo` for `Change` (src/repo.rs): inverse action. -/
def Change.undo : Change → Git → Except Error Git
  | Change.StageFile f, git => Internal.unstage_file git f
  | Change.UnstageFile f, git => Internal.stage_file git f

/-! ## Repo : history and undo/redo

The history container comes from the external `undo` crate, which is not part
of this repository's sources; it is modelled from the spec below. -/

/-- Modelled from the spec: the `undo` crate's `History` (the spec's
ChangeHistory), an ordered sequence of applied commands plus a cursor
separating applied from undone-but-redoable entries — here as a zipper:
`applied` holds the commands before the cursor, most recent first, and
`redoable` the undone commands after the cursor, next-to-redo first. The
`Repo` pairs it with the backend state (`Internal`). -/
structure RepoState where
  git : Git
  applied : List Change
  redoable : List Change

/-- `Repo::undo` from src/repo.rs, with the history's `undo` modelled from
the spec: a cursor at the start of the sequence yields `UndoEmpty` (the
history returns nothing and `ok_or(Error::UndoEmpty)` applies); otherwise the
cursor steps back over the most recent applied command, its inverse action
runs against the backend, the command stays in place (now redoable), and the
action's result is flattened into the caller's result. The cursor movement is
not rolled back on a failing action. -/
def Repo.undo (r : RepoState) : RepoState × Except Error Unit :=
  match r.applied with
  | [] => (r, Except.error Error.UndoEmpty)
  | c :: rest =>
      match Change.undo c r.git with
      | Except.ok g => (RepoState.mk g rest (c :: r.redoable), Except.ok ())
      | Except.error e =>
          (RepoState.mk r.git rest (c :: r.redoable), Except.error e)

/-- `Repo::redo` from src/repo.rs, with the history's `redo` modelled from
the spec: a cursor at the end of the sequence yields `RedoEmpty`; otherwise
the next undone command's forward action runs against the backend and the
cursor advances. The cursor movement is not rolled back on a failing
action. -/
def Repo.redo (r : RepoState) : RepoState × Except Error Unit :=
  match r.redoable with
  | [] => (r, Except.error Error.RedoEmpty)
  | c :: rest =>
      match Change.apply c r.git with
      | Except.ok g => (RepoState.mk g (c :: r.applied) rest, Except.ok ())
      | Except.error e =>
          (RepoState.mk r.git (c :: r.applied) rest, Except.error e)

/-! ## Specification-side helpers for the traversal theorems -/

/-- The deltas of an event stream the traversal could visit before hitting
the first backend failure. -/
def preFailureDeltas : List DiffEvent → List (DiffDelta × List DiffLine)
  | [] => []
  | DiffEvent.backendFailure _ :: _ => []
  | DiffEvent.delta d ls :: rest => (d, ls) :: preFailureDeltas rest

/-- The first backend failure of an event stream, if any. -/
def firstFailure : List DiffEvent → Option Git2Error
  | [] => none
  | DiffEvent.backendFailure e :: _ => some e
  | DiffEvent.delta _ _ :: rest => firstFailure rest

/-! ## Lemmas on the traversal -/

theorem file_cb_eq (target : String) (meta : Option Meta) (delta : DiffDelta) :
    Internal.file_cb target meta delta =
      if Internal.delta_path delta = some target then
        (Meta.from_git2 delta).map fun m => (some m, true)
      else Except.ok (meta, meta.isNone) := by
  unfold Internal.file_cb
  cases hdp : Internal.delta_path delta with
  | none => simp
  | some dp =>
    by_cases h : dp = target
    · subst h
      cases hfg : Meta.from_git2 delta <;> simp [hfg, Except.map]
    · simp [h]

theorem run_lines_eq (target : String) (d : DiffDelta) (ls : List DiffLine)
    (acc : List Line) :
    Internal.run_lines target d ls acc =
      (acc ++ (if Internal.delta_path d = some target
               then ls.map Line.from_git2 else []), true) := by
  induction ls generalizing acc with
  | nil => simp [Internal.run_lines]
  | cons l rest ih =>
    unfold Internal.run_lines Internal.line_cb
    cases hdp : Internal.delta_path d with
    | none => simp [ih, hdp]
    | some dp =>
      by_cases h : dp = target
      · subst h
        simp [ih, hdp]
      · simp [h, ih, hdp]

theorem foreach_some_persists (target : String) (events : List DiffEvent)
    (m₀ : Meta) (acc : List Line) (m : Option Meta) (lines : List Line)
    (r : Except Git2Error Unit)
    (h : Internal.foreach target events (some m₀) acc = Except.ok (m, lines, r)) :
    m.isSome := by
  induction events generalizing m₀ acc with
  | nil =>
    simp [Internal.foreach] at h
    simp [← h.1]
  | cons ev rest ih =>
    cases ev with
    | backendFailure e =>
      simp [Internal.foreach] at h
      simp [← h.1]
    | delta d ls =>
      rw [show Internal.foreach target (DiffEvent.delta d ls :: rest) (some m₀) acc =
        (match Internal.file_cb target (some m₀) d with
        | Except.error p => Except.error p
        | Except.ok (meta', false) =>
            Except.ok (meta', acc, Except.error ⟨ErrorCode.user⟩)
        | Except.ok (meta', true) =>
            match Internal.run_lines target d ls acc with
            | (lines', true) => Internal.foreach target rest meta' lines'
            | (lines', false) =>
                Except.ok (meta', lines', Except.error ⟨ErrorCode.user⟩)) from rfl,
        file_cb_eq] at h
      by_cases hdp : Internal.delta_path d = some target
      · rw [if_pos hdp] at h
        cases hfg : Meta.from_git2 d with
        | error p => rw [hfg] at h; cases h
        | ok mm =>
          rw [hfg] at h
          simp only [Except.map, run_lines_eq] at h
          exact ih mm _ h
      · rw [if_neg hdp] at h
        simp only [Option.isNone] at h
        simp only [Except.ok.injEq, Prod.mk.injEq] at h
        simp [← h.1]

theorem foreach_cons_delta (target : String) (d : DiffDelta) (ls : List DiffLine)
    (rest : List DiffEvent) (meta : Option Meta) (lines : List Line) :
    Internal.foreach target (DiffEvent.delta d ls :: rest) meta lines =
      (match Internal.file_cb target meta d with
      | Except.error p => Except.error p
      | Except.ok (meta', false) =>
          Except.ok (meta', lines, Except.error ⟨ErrorCode.user⟩)
      | Except.ok (meta', true) =>
          match Internal.run_lines target d ls lines with
          | (lines', true) => Internal.foreach target rest meta' lines'
          | (lines', false) =>
              Except.ok (meta', lines', Except.error ⟨ErrorCode.user⟩)) := rfl

/-- When the final captured classification is empty, none was ever captured:
the initial state was empty, no delta the traversal could visit before the
first backend failure matches the target, and the traversal outcome is
determined by the first backend failure. -/
theorem foreach_none_of (target : String) (events : List DiffEvent)
    (meta : Option Meta) (acc lines : List Line) (r : Except Git2Error Unit)
    (h : Internal.foreach target events meta acc = Except.ok (none, lines, r)) :
    meta = none ∧
    (∀ p ∈ preFailureDeltas events, Internal.delta_path p.1 ≠ some target) ∧
    r = (match firstFailure events with
         | none => Except.ok ()
         | some e => Except.error e) := by
  induction events generalizing meta acc with
  | nil =>
    simp [Internal.foreach] at h
    simp [preFailureDeltas, firstFailure, h.1, ← h.2.2]
  | cons ev rest ih =>
    cases ev with
    | backendFailure e =>
      simp [Internal.foreach] at h
      simp [preFailureDeltas, firstFailure, h.1, ← h.2.2]
    | delta d ls =>
      rw [foreach_cons_delta, file_cb_eq] at h
      by_cases hdp : Internal.delta_path d = some target
      · rw [if_pos hdp] at h
        cases hfg : Meta.from_git2 d with
        | error p => rw [hfg] at h; cases h
        | ok mm =>
          rw [hfg] at h
          simp only [Except.map, run_lines_eq] at h
          have := foreach_some_persists target rest mm _ none lines r h
          cases this
      · rw [if_neg hdp] at h
        cases meta with
        | some m₀ =>
          simp only [Option.isNone, Except.ok.injEq, Prod.mk.injEq] at h
          cases h.1
        | none =>
          simp only [Option.isNone] at h
          rw [run_lines_eq, if_neg hdp, List.append_nil] at h
          obtain ⟨-, h2, h3⟩ := ih none acc h
          refine ⟨rfl, ?_, ?_⟩
          · intro p hp
            rcases List.mem_cons.mp hp with hp | hp
            · rw [hp]; exact hdp
            · exact h2 p hp
          · simpa [firstFailure] using h3

/-- A traversal over a stream whose pre-failure deltas never match the
target captures nothing, appends nothing, and ends as the first backend
failure dictates. -/
theorem foreach_no_match (target : String) (events : List DiffEvent)
    (hnm : ∀ p ∈ preFailureDeltas events, Internal.delta_path p.1 ≠ some target) :
    Internal.foreach target events none [] =
      Except.ok (none, [],
        match firstFailure events with
        | none => Except.ok ()
        | some e => Except.error e) := by
  induction events with
  | nil => simp [Internal.foreach, firstFailure]
  | cons ev rest ih =>
    cases ev with
    | backendFailure e => simp [Internal.foreach, firstFailure]
    | delta d ls =>
      have hd : Internal.delta_path d ≠ some target :=
        hnm (d, ls) (by simp [preFailureDeltas])
      rw [foreach_cons_delta, file_cb_eq, if_neg hd]
      simp only [Option.isNone]
      rw [run_lines_eq, if_neg hd, List.append_nil]
      show Internal.foreach target rest none [] = _
      rw [ih fun p hp => hnm p (by simp [preFailureDeltas, hp])]
      simp [firstFailure]

/-- Every line a traversal accumulates was already in the accumulator or
converts a backend line record of a visited delta whose path equals the
target. -/
theorem foreach_lines_mem (target : String) (events : List DiffEvent)
    (meta : Option Meta) (acc : List Line) (m : Option Meta)
    (lines : List Line) (r : Except Git2Error Unit)
    (h : Internal.foreach target events meta acc = Except.ok (m, lines, r)) :
    ∀ l ∈ lines, l ∈ acc ∨ ∃ d ls dl, DiffEvent.delta d ls ∈ events ∧ dl ∈ ls ∧
      Internal.delta_path d = some target ∧ l = Line.from_git2 dl := by
  induction events generalizing meta acc with
  | nil =>
    simp [Internal.foreach] at h
    intro l hl
    rw [← h.2.1] at hl
    exact Or.inl hl
  | cons ev rest ih =>
    cases ev with
    | backendFailure e =>
      simp [Internal.foreach] at h
      intro l hl
      rw [← h.2.1] at hl
      exact Or.inl hl
    | delta d ls =>
      rw [foreach_cons_delta, file_cb_eq] at h
      by_cases hdp : Internal.delta_path d = some target
      · rw [if_pos hdp] at h
        cases hfg : Meta.from_git2 d with
        | error p => rw [hfg] at h; cases h
        | ok mm =>
          rw [hfg] at h
          simp only [Except.map, run_lines_eq, if_pos hdp] at h
          intro l hl
          rcases ih (some mm) (acc ++ ls.map Line.from_git2) h l hl with hin | hex
          · rcases List.mem_append.mp hin with hin | hin
            · exact Or.inl hin
            · obtain ⟨dl, hdl, hldl⟩ := List.mem_map.mp hin
              exact Or.inr ⟨d, ls, dl, List.mem_cons_self _ _, hdl, hdp, hldl.symm⟩
          · obtain ⟨d', ls', dl, hd', hdl, hdp', hldl⟩ := hex
            exact Or.inr ⟨d', ls', dl, List.mem_cons_of_mem _ hd', hdl, hdp', hldl⟩
      · rw [if_neg hdp] at h
        cases meta with
        | some m₀ =>
          simp only [Option.isNone, Except.ok.injEq, Prod.mk.injEq] at h
          intro l hl
          rw [← h.2.1] at hl
          exact Or.inl hl
        | none =>
          simp only [Option.isNone] at h
          rw [run_lines_eq, if_neg hdp, List.append_nil] at h
          intro l hl
          rcases ih none acc h l hl with hin | hex
          · exact Or.inl hin
          · obtain ⟨d', ls', dl, hd', hdl, hdp', hldl⟩ := hex
            exact Or.inr ⟨d', ls', dl, List.mem_cons_of_mem _ hd', hdl, hdp', hldl⟩

/-- Inverting a successful extraction: the traversal ran to a captured
classification and exactly the returned lines. -/
theorem diff_details_run_ok (target : String) (events : List DiffEvent)
    (details : Details)
    (h : Internal.diff_details_run target events = Except.ok (Except.ok details)) :
    ∃ r, Internal.foreach target events none [] =
      Except.ok (some details.meta, details.lines, r) := by
  unfold Internal.diff_details_run at h
  cases hfe : Internal.foreach target events none [] with
  | error p => rw [hfe] at h; cases h
  | ok v =>
    obtain ⟨meta, lines, r⟩ := v
    rw [hfe] at h
    dsimp only at h
    refine ⟨r, ?_⟩
    cases r with
    | ok u =>
      cases meta with
      | none => simp [Internal.finish] at h
      | some m =>
        simp only [Internal.finish, Except.ok.injEq] at h
        rw [← h]
    | error e =>
      dsimp only at h
      by_cases hc : e.code = ErrorCode.user
      · rw [if_pos hc] at h
        cases meta with
        | none => simp [Internal.finish] at h
        | some m =>
          simp only [Internal.finish, Except.ok.injEq] at h
          rw [← h]
      · rw [if_neg hc] at h
        cases h

/-- The assembly step never produces a backend error. -/
theorem finish_ne_git2 (target : String) (meta : Option Meta)
    (lines : List Line) (e : Git2Error) :
    Internal.finish target meta lines ≠ Except.ok (Except.error (Error.Git2 e)) := by
  cases meta <;> simp [Internal.finish]

/-- Inverting a PathNotFound outcome: the failure carries the requested path
and the traversal ended, completed or user-aborted, with nothing captured. -/
theorem diff_details_run_pathNotFound (target p : String) (events : List DiffEvent)
    (h : Internal.diff_details_run target events
      = Except.ok (Except.error (Error.PathNotFound p))) :
    p = target ∧ ∃ lines r,
      Internal.foreach target events none [] = Except.ok (none, lines, r) ∧
      (r = Except.ok () ∨ ∃ e, r = Except.error e ∧ e.code = ErrorCode.user) := by
  unfold Internal.diff_details_run at h
  cases hfe : Internal.foreach target events none [] with
  | error q => rw [hfe] at h; cases h
  | ok v =>
    obtain ⟨meta, lines, r⟩ := v
    rw [hfe] at h
    dsimp only at h
    cases r with
    | ok u =>
      cases meta with
      | some m => simp [Internal.finish] at h
      | none =>
        simp only [Internal.finish, Except.ok.injEq, Except.error.injEq,
          Error.PathNotFound.injEq] at h
        exact ⟨h.symm, lines, Except.ok u, rfl, Or.inl rfl⟩
    | error e =>
      dsimp only at h
      by_cases hc : e.code = ErrorCode.user
      · rw [if_pos hc] at h
        cases meta with
        | some m => simp [Internal.finish] at h
        | none =>
          simp only [Internal.finish, Except.ok.injEq, Except.error.injEq,
            Error.PathNotFound.injEq] at h
          exact ⟨h.symm, lines, Except.error e, ⟨rfl, Or.inr ⟨e, rfl, hc⟩⟩⟩
      · rw [if_neg hc] at h
        simp at h

/-! ## Claim theorems -/

/-- C1: for every target relative path, the extraction traversal restricts
its line sequence to that path: the line callback appends a record exactly
when the path of the delta currently being processed equals the target, and
every line of a successful `DiffDetails` converts a line record of a visited
delta whose path equals the target — no line of any other changed path
appears in the result. -/
theorem c1_diff_detail_lines_restricted (target : String)
    (events : List DiffEvent) (details : Details)
    (h : Internal.diff_details_run target events = Except.ok (Except.ok details)) :
    (∀ acc d dl, (Internal.line_cb target acc d dl).1 =
        if Internal.delta_path d = some target
        then acc ++ [Line.from_git2 dl] else acc) ∧
    ∀ l ∈ details.lines, ∃ d ls dl, DiffEvent.delta d ls ∈ events ∧ dl ∈ ls ∧
      Internal.delta_path d = some target ∧ l = Line.from_git2 dl := by
  constructor
  · intro acc d dl
    unfold Internal.line_cb
    cases hdp : Internal.delta_path d with
    | none => simp
    | some dp =>
      by_cases hq : dp = target
      · subst hq; simp
      · simp [hq]
  · obtain ⟨r, hr⟩ := diff_details_run_ok target events details h
    intro l hl
    rcases foreach_lines_mem target events none [] _ _ r hr l hl with hin | hex
    · cases hin
    · exact hex

/-- Witness for C1 at a concrete one-delta stream. -/
theorem c1_diff_detail_lines_restricted_witness :
    Internal.diff_details_run "a"
        [DiffEvent.delta ⟨DeltaStatus.untracked, 1, ⟨0, none, 0⟩, ⟨0, some "a", 5⟩⟩
          [⟨some 1, some 1, 1, 0, [104], DiffLineType.context⟩]]
      = Except.ok (Except.ok (Details.mk (Meta.Untracked ⟨none, some "a", 5⟩)
          [⟨some 1, some 1, 1, 0, [104], DiffLineType.context⟩])) ∧
    ∀ l ∈ (Details.mk (Meta.Untracked ⟨none, some "a", 5⟩)
          [(⟨some 1, some 1, 1, 0, [104], DiffLineType.context⟩ : Line)]).lines,
      ∃ d ls dl,
        DiffEvent.delta d ls ∈
          [DiffEvent.delta ⟨DeltaStatus.untracked, 1, ⟨0, none, 0⟩, ⟨0, some "a", 5⟩⟩
            [⟨some 1, some 1, 1, 0, [104], DiffLineType.context⟩]] ∧
        dl ∈ ls ∧ Internal.delta_path d = some "a" ∧ l = Line.from_git2 dl :=
  ⟨by decide,
   (c1_diff_detail_lines_restricted "a"
      [DiffEvent.delta ⟨DeltaStatus.untracked, 1, ⟨0, none, 0⟩, ⟨0, some "a", 5⟩⟩
        [⟨some 1, some 1, 1, 0, [104], DiffLineType.context⟩]]
      (Details.mk (Meta.Untracked ⟨none, some "a", 5⟩)
        [⟨some 1, some 1, 1, 0, [104], DiffLineType.context⟩])
      (by decide)).2⟩

/-- C2: the extraction fails with `PathNotFound` carrying the requested path
exactly when the traversal completes — running out of events or stopping on
the deliberate user-abort code — without any visitable delta matching the
target; a genuine backend error arising mid-traversal is propagated, and the
user-callback-abort code is never surfaced as an error. -/
theorem c2_path_not_found_and_backend_errors (target : String)
    (events : List DiffEvent) :
    (Internal.diff_details_run target events
        = Except.ok (Except.error (Error.PathNotFound target)) ↔
      (∀ p ∈ preFailureDeltas events, Internal.delta_path p.1 ≠ some target) ∧
      (∀ e, firstFailure events = some e → e.code = ErrorCode.user)) ∧
    (∀ p, Internal.diff_details_run target events
        = Except.ok (Except.error (Error.PathNotFound p)) → p = target) ∧
    (∀ m lines e,
      Internal.foreach target events none [] = Except.ok (m, lines, Except.error e) →
      e.code ≠ ErrorCode.user →
      Internal.diff_details_run target events
        = Except.ok (Except.error (Error.Git2 e))) ∧
    (∀ e, e.code = ErrorCode.user →
      Internal.diff_details_run target events
        ≠ Except.ok (Except.error (Error.Git2 e))) := by
  refine ⟨⟨?_, ?_⟩, ?_, ?_, ?_⟩
  · intro h
    obtain ⟨-, lines, r, hfe, hr⟩ :=
      diff_details_run_pathNotFound target target events h
    obtain ⟨-, hnm, hchar⟩ := foreach_none_of target events none [] lines r hfe
    refine ⟨hnm, ?_⟩
    intro e hff
    rw [hff] at hchar
    rcases hr with hr | ⟨e', hr, hc⟩
    · rw [hr] at hchar; cases hchar
    · rw [hr] at hchar
      cases hchar
      exact hc
  · rintro ⟨hnm, hff⟩
    have hfe := foreach_no_match target events hnm
    cases hffe : firstFailure events with
    | none =>
      rw [hffe] at hfe
      simp [Internal.diff_details_run, hfe, Internal.finish]
    | some e =>
      rw [hffe] at hfe
      simp [Internal.diff_details_run, hfe, hff e hffe, Internal.finish]
  · intro p h
    exact (diff_details_run_pathNotFound target p events h).1
  · intro m lines e hfe hc
    unfold Internal.diff_details_run
    rw [hfe]
    dsimp only
    rw [if_neg hc]
  · intro e hc hcontra
    unfold Internal.diff_details_run at hcontra
    cases hfe : Internal.foreach target events none [] with
    | error q => rw [hfe] at hcontra; cases hcontra
    | ok v =>
      obtain ⟨m, lines, r⟩ := v
      rw [hfe] at hcontra
      dsimp only at hcontra
      cases r with
      | ok u => exact finish_ne_git2 target m lines e hcontra
      | error e' =>
        dsimp only at hcontra
        by_cases hc' : e'.code = ErrorCode.user
        · rw [if_pos hc'] at hcontra
          exact finish_ne_git2 target m lines e hcontra
        · rw [if_neg hc'] at hcontra
          simp only [Except.ok.injEq, Except.error.injEq, Error.Git2.injEq] at hcontra
          rw [hcontra] at hc'
          exact hc' hc

/-- Witness for C2: on an empty stream the extraction reports PathNotFound
for the requested path. -/
theorem c2_path_not_found_and_backend_errors_witness :
    Internal.diff_details_run "a" []
      = Except.ok (Except.error (Error.PathNotFound "a")) :=
  (c2_path_not_found_and_backend_errors "a" []).1.mpr
    ⟨by simp [preFailureDeltas], by simp [firstFailure]⟩

/-- C3 counterexample: at the file visit whose path equals the target the
file callback does not signal that no further file visits are needed — it
returns the continue signal (`true`) after capturing the classification; the
claim's stop signal (`false`) is not what this invocation returns. -/
theorem c3_counterexample :
    Internal.file_cb "a" none
        ⟨DeltaStatus.untracked, 1, ⟨0, none, 0⟩, ⟨0, some "a", 5⟩⟩
      = Except.ok (some (Meta.Untracked ⟨none, some "a", 5⟩), true) ∧
    Internal.file_cb "a" none
        ⟨DeltaStatus.untracked, 1, ⟨0, none, 0⟩, ⟨0, some "a", 5⟩⟩
      ≠ Except.ok (some (Meta.Untracked ⟨none, some "a", 5⟩), false) :=
  ⟨by decide, by decide⟩

/-- C3 (amended): the file callback signals continue at the visit whose path
equals the target, after capturing that delta's classification via the
classifier, so that the matched file's line records still flow; it signals
that no further file visits are needed at the first visit after the target
has been captured; until the target is found it signals continue; and the
line callback always signals continue, so line records keep being accepted
until the matched file's hunks are naturally exhausted. -/
theorem c3_file_cb_signals (target : String) (meta : Option Meta)
    (d : DiffDelta) (m : Meta) :
    (Internal.delta_path d = some target → Meta.from_git2 d = Except.ok m →
      Internal.file_cb target meta d = Except.ok (some m, true)) ∧
    (Internal.delta_path d ≠ some target →
      Internal.file_cb target none d = Except.ok (none, true)) ∧
    (Internal.delta_path d ≠ some target →
      Internal.file_cb target (some m) d = Except.ok (some m, false)) ∧
    (∀ acc dl, (Internal.line_cb target acc d dl).2 = true) := by
  refine ⟨?_, ?_, ?_, ?_⟩
  · intro hdp hfg
    rw [file_cb_eq, if_pos hdp, hfg]
    rfl
  · intro hdp
    rw [file_cb_eq, if_neg hdp]
    rfl
  · intro hdp
    rw [file_cb_eq, if_neg hdp]
    rfl
  · intro acc dl
    unfold Internal.line_cb
    cases hdp : Internal.delta_path d with
    | none => rfl
    | some dp => by_cases hq : dp = target <;> simp [hq]

/-- Witness for C3 (amended): continue at the matching visit, stop at the
first visit after the capture. -/
theorem c3_file_cb_signals_witness :
    Internal.file_cb "a" none
        ⟨DeltaStatus.untracked, 1, ⟨0, none, 0⟩, ⟨0, some "a", 5⟩⟩
      = Except.ok (some (Meta.Untracked ⟨none, some "a", 5⟩), true) ∧
    Internal.file_cb "a" (some (Meta.Untracked ⟨none, some "a", 5⟩))
        ⟨DeltaStatus.modified, 2, ⟨7, some "b", 3⟩, ⟨8, some "b", 4⟩⟩
      = Except.ok (some (Meta.Untracked ⟨none, some "a", 5⟩), false) :=
  ⟨(c3_file_cb_signals "a" none
      ⟨DeltaStatus.untracked, 1, ⟨0, none, 0⟩, ⟨0, some "a", 5⟩⟩
      (Meta.Untracked ⟨none, some "a", 5⟩)).1 (by decide) (by decide),
   (c3_file_cb_signals "a" none
      ⟨DeltaStatus.modified, 2, ⟨7, some "b", 3⟩, ⟨8, some "b", 4⟩⟩
      (Meta.Untracked ⟨none, some "a", 5⟩)).2.2.1 (by decide)⟩

/-- C4: the classifier returns the `Meta` variant matching the record's
status tag and carrying the stated sides: Added, Ignored, Untracked and
Unreadable carry the record's new side, Deleted carries the old side, and
Modified, Renamed, Copied, Typechange and Conflicted carry both sides. -/
theorem c4_classifier_variants (d : DiffDelta) :
    (d.status = DeltaStatus.added → d.nfiles = 1 →
      Meta.from_git2 d = Except.ok (Meta.Added (File.from_diff_file d.new_file))) ∧
    (d.status = DeltaStatus.deleted → d.nfiles = 1 →
      Meta.from_git2 d = Except.ok (Meta.Deleted (File.from_diff_file d.old_file))) ∧
    (d.status = DeltaStatus.ignored → d.nfiles = 1 →
      Meta.from_git2 d = Except.ok (Meta.Ignored (File.from_diff_file d.new_file))) ∧
    (d.status = DeltaStatus.untracked → d.nfiles = 1 →
      Meta.from_git2 d = Except.ok (Meta.Untracked (File.from_diff_file d.new_file))) ∧
    (d.status = DeltaStatus.unreadable → d.nfiles = 1 →
      Meta.from_git2 d = Except.ok (Meta.Unreadable (File.from_diff_file d.new_file))) ∧
    (d.status = DeltaStatus.modified → d.nfiles = 2 →
      Meta.from_git2 d = Except.ok (Meta.Modified (File.from_diff_file d.old_file)
        (File.from_diff_file d.new_file))) ∧
    (d.status = DeltaStatus.renamed → d.nfiles = 2 →
      Meta.from_git2 d = Except.ok (Meta.Renamed (File.from_diff_file d.old_file)
        (File.from_diff_file d.new_file))) ∧
    (d.status = DeltaStatus.copied → d.nfiles = 2 →
      Meta.from_git2 d = Except.ok (Meta.Copied (File.from_diff_file d.old_file)
        (File.from_diff_file d.new_file))) ∧
    (d.status = DeltaStatus.typechange → d.nfiles = 2 →
      Meta.from_git2 d = Except.ok (Meta.Typechange (File.from_diff_file d.old_file)
        (File.from_diff_file d.new_file))) ∧
    (d.status = DeltaStatus.conflicted → d.nfiles = 2 →
      Meta.from_git2 d = Except.ok (Meta.Conflicted (File.from_diff_file d.old_file)
        (File.from_diff_file d.new_file))) := by
  refine ⟨?_, ?_, ?_, ?_, ?_, ?_, ?_, ?_, ?_, ?_⟩ <;>
    · intro hs hn
      simp [Meta.from_git2, hs, hn, Meta.get_new_file_only,
        Meta.get_old_file_only, Meta.get_both_files, Except.map]

/-- Witness for C4 at a concrete added record. -/
theorem c4_classifier_variants_witness :
    Meta.from_git2 ⟨DeltaStatus.added, 1, ⟨0, none, 0⟩, ⟨3, some "n", 2⟩⟩
      = Except.ok (Meta.Added (File.from_diff_file ⟨3, some "n", 2⟩)) :=
  (c4_classifier_variants ⟨DeltaStatus.added, 1, ⟨0, none, 0⟩, ⟨3, some "n", 2⟩⟩).1
    rfl rfl

/-- The status tags whose records must offer exactly one side. -/
def requiresOneSide : DeltaStatus → Bool
  | DeltaStatus.added | DeltaStatus.deleted | DeltaStatus.ignored
  | DeltaStatus.untracked | DeltaStatus.unreadable => true
  | _ => false

/-- The status tags whose records must offer exactly two sides. -/
def requiresTwoSides : DeltaStatus → Bool
  | DeltaStatus.modified | DeltaStatus.renamed | DeltaStatus.copied
  | DeltaStatus.typechange | DeltaStatus.conflicted => true
  | _ => false

/-- C5: malformed records are fatal, non-recoverable invariant violations:
a record whose status requires exactly one side panics unless it offers
exactly one, a record whose status requires two sides panics unless it
offers exactly two, a record with status Unmodified always hits the
unreachable arm, and the traversal options exclude unmodified entries. -/
theorem c5_malformed_records_fatal (d : DiffDelta) :
    (requiresOneSide d.status = true → d.nfiles ≠ 1 →
      Meta.from_git2 d = Except.error Panic.assertFailed) ∧
    (requiresOneSide d.status = true → d.nfiles = 1 →
      ∃ m, Meta.from_git2 d = Except.ok m) ∧
    (requiresTwoSides d.status = true → d.nfiles ≠ 2 →
      Meta.from_git2 d = Except.error Panic.assertFailed) ∧
    (requiresTwoSides d.status = true → d.nfiles = 2 →
      ∃ m, Meta.from_git2 d = Except.ok m) ∧
    (d.status = DeltaStatus.unmodified →
      Meta.from_git2 d = Except.error Panic.unreachableUnmodified) ∧
    Internal.uncommitted_opts.include_unmodified = false := by
  obtain ⟨s, n, fo, fn⟩ := d
  cases s <;>
    · refine ⟨?_, ?_, ?_, ?_, ?_, rfl⟩ <;>
      · intros
        simp_all [requiresOneSide, requiresTwoSides, Meta.from_git2,
          Meta.get_new_file_only, Meta.get_old_file_only, Meta.get_both_files,
          Except.map]

/-- Witness for C5: a one-side status offering two sides panics. -/
theorem c5_malformed_records_fatal_witness :
    Meta.from_git2 ⟨DeltaStatus.added, 2, ⟨0, none, 0⟩, ⟨3, some "n", 2⟩⟩
      = Except.error Panic.assertFailed :=
  (c5_malformed_records_fatal ⟨DeltaStatus.added, 2, ⟨0, none, 0⟩, ⟨3, some "n", 2⟩⟩).1
    rfl (by decide)

/-- C6: with an unborn HEAD every query treats the baseline as an empty
tree instead of failing: the unborn-branch code is distinguished from every
other baseline-resolution error, listing and diff extraction proceed, and a
brand-new repository with zero commits and zero files lists no uncommitted
changes. -/
theorem c6_unborn_head_empty_baseline :
    Internal.head (Except.error ⟨ErrorCode.unbornBranch⟩) = Except.ok none ∧
    (∀ t, Internal.head (Except.ok t) = Except.ok (some t)) ∧
    (∀ e, e.code ≠ ErrorCode.unbornBranch →
      Internal.head (Except.error e) = Except.error (Error.Git2 e)) ∧
    (∀ bd : Option Tree → DiffOptions → List DiffDelta,
      bd none Internal.uncommitted_opts = [] →
      Internal.uncommitted_files (Except.error ⟨ErrorCode.unbornBranch⟩) bd
        = Except.ok (Except.ok [])) ∧
    (∀ (target : String) (bd : Option Tree → DiffOptions → List DiffEvent),
      bd none (Internal.uncommitted_opts.withPathspec target) = [] →
      Internal.diff_details_for_path (Except.error ⟨ErrorCode.unbornBranch⟩)
          bd target
        = Except.ok (Except.error (Error.PathNotFound target))) := by
  refine ⟨rfl, fun t => rfl, ?_, ?_, ?_⟩
  · intro e hc
    unfold Internal.head
    dsimp only
    rw [if_neg hc]
  · intro bd hbd
    unfold Internal.uncommitted_files
    rw [show Internal.head (Except.error ⟨ErrorCode.unbornBranch⟩)
      = Except.ok none from rfl]
    dsimp only
    rw [hbd]
    rfl
  · intro target bd hbd
    unfold Internal.diff_details_for_path
    rw [show Internal.head (Except.error ⟨ErrorCode.unbornBranch⟩)
      = Except.ok none from rfl]
    dsimp only
    rw [hbd]
    rfl

/-- Witness for C6: a repository with zero commits and zero files (the
backend diff against the empty-tree baseline is empty) lists nothing, and
asking it for diff detail yields PathNotFound rather than a baseline
error. -/
theorem c6_unborn_head_empty_baseline_witness :
    Internal.uncommitted_files (Except.error ⟨ErrorCode.unbornBranch⟩)
        (fun _ _ => []) = Except.ok (Except.ok []) ∧
    Internal.diff_details_for_path (Except.error ⟨ErrorCode.unbornBranch⟩)
        (fun _ _ => []) "a" = Except.ok (Except.error (Error.PathNotFound "a")) :=
  ⟨c6_unborn_head_empty_baseline.2.2.2.1 (fun _ _ => []) rfl,
   c6_unborn_head_empty_baseline.2.2.2.2 "a" (fun _ _ => []) rfl⟩

/-- C7: for every file with a relative path, staging is a silent no-op when
the ignore rules match the path (state unchanged, no error) and otherwise
adds the path to the staging index; unstaging removes the path from the
staging index unconditionally, with no ignore-rule guard. -/
theorem c7_stage_ignore_noop_unstage_unconditional (git : Git) (f : File)
    (p : String) (h : f.rel_path = some p) :
    (git.ignore p = true → Internal.stage_file git f = Except.ok git) ∧
    (git.ignore p = false → Internal.stage_file git f
      = Except.ok (Git.mk (Internal.addPath git.index p) git.ignore)) ∧
    Internal.unstage_file git f
      = Except.ok (Git.mk (Internal.removePath git.index p) git.ignore) := by
  refine ⟨?_, ?_, ?_⟩
  · intro hig
    simp [Internal.stage_file, File.rel_path_required, h, hig]
  · intro hig
    simp [Internal.stage_file, File.rel_path_required, h, hig]
  · simp [Internal.unstage_file, File.rel_path_required, h]

/-- Witness for C7: staging a non-ignored path adds it, staging an ignored
path changes nothing, unstaging removes with no ignore guard. -/
theorem c7_stage_ignore_noop_unstage_unconditional_witness :
    Internal.stage_file (Git.mk [] fun q => q == "ign") ⟨none, some "a", 3⟩
      = Except.ok (Git.mk (Internal.addPath [] "a") fun q => q == "ign") ∧
    Internal.stage_file (Git.mk [] fun q => q == "ign") ⟨none, some "ign", 3⟩
      = Except.ok (Git.mk [] fun q => q == "ign") ∧
    Internal.unstage_file (Git.mk ["ign"] fun q => q == "ign")
        ⟨none, some "ign", 3⟩
      = Except.ok (Git.mk (Internal.removePath ["ign"] "ign") fun q => q == "ign") :=
  ⟨(c7_stage_ignore_noop_unstage_unconditional
      (Git.mk [] fun q => q == "ign") ⟨none, some "a", 3⟩ "a" rfl).2.1 (by rfl),
   (c7_stage_ignore_noop_unstage_unconditional
      (Git.mk [] fun q => q == "ign") ⟨none, some "ign", 3⟩ "ign" rfl).1 (by rfl),
   (c7_stage_ignore_noop_unstage_unconditional
      (Git.mk ["ign"] fun q => q == "ign") ⟨none, some "ign", 3⟩ "ign" rfl).2.2⟩

/-- C8: the inverse action of each staging command is the algebraic
opposite of its forward action on the same file: undoing Stage performs the
unstage action on that file, undoing Unstage performs the stage action on
that file. -/
theorem c8_undo_is_algebraic_opposite (f : File) (git : Git) :
    Change.undo (Change.StageFile f) git = Internal.unstage_file git f ∧
    Change.undo (Change.UnstageFile f) git = Internal.stage_file git f ∧
    Change.apply (Change.StageFile f) git = Internal.stage_file git f ∧
    Change.apply (Change.UnstageFile f) git = Internal.unstage_file git f :=
  ⟨rfl, rfl, rfl, rfl⟩

/-- The only error the stage action can produce is a missing path. -/
theorem stage_file_error_eq (git : Git) (f : File) (e : Error)
    (h : Internal.stage_file git f = Except.error e) : e = Error.MissingPath f := by
  unfold Internal.stage_file File.rel_path_required at h
  cases hf : f.rel_path with
  | none =>
    rw [hf] at h
    dsimp only at h
    simp only [Except.error.injEq] at h
    exact h.symm
  | some p =>
    rw [hf] at h
    dsimp only at h
    by_cases hig : git.ignore p = true
    · simp [hig] at h
    · simp [hig] at h

/-- The only error the unstage action can produce is a missing path. -/
theorem unstage_file_error_eq (git : Git) (f : File) (e : Error)
    (h : Internal.unstage_file git f = Except.error e) : e = Error.MissingPath f := by
  unfold Internal.unstage_file File.rel_path_required at h
  cases hf : f.rel_path with
  | none =>
    rw [hf] at h
    dsimp only at h
    simp only [Except.error.injEq] at h
    exact h.symm
  | some p =>
    rw [hf] at h
    simp at h

/-- Unfolding `Repo::undo` past a non-empty applied list. -/
theorem repo_undo_cons (git : Git) (c : Change) (rest redoable : List Change) :
    Repo.undo (RepoState.mk git (c :: rest) redoable)
      = match Change.undo c git with
        | Except.ok g => (RepoState.mk g rest (c :: redoable), Except.ok ())
        | Except.error e =>
            (RepoState.mk git rest (c :: redoable), Except.error e) := rfl

/-- Unfolding `Repo::redo` past a non-empty redoable list. -/
theorem repo_redo_cons (git : Git) (c : Change) (applied rest : List Change) :
    Repo.redo (RepoState.mk git applied (c :: rest))
      = match Change.apply c git with
        | Except.ok g => (RepoState.mk g (c :: applied) rest, Except.ok ())
        | Except.error e =>
            (RepoState.mk git (c :: applied) rest, Except.error e) := rfl

/-- Every error of a command action, forward ∨ inverse, is a missing
path. -/
theorem change_action_error_eq (c : Change) (git : Git) (e : Error) :
    (Change.apply c git = Except.error e ∨ Change.undo c git = Except.error e) ->
    ∃ f, e = Error.MissingPath f := by
  intro h
  cases c with
  | StageFile f =>
    rcases h with h | h
    · exact ⟨f, stage_file_error_eq git f e h⟩
    · exact ⟨f, unstage_file_error_eq git f e h⟩
  | UnstageFile f =>
    rcases h with h | h
    · exact ⟨f, unstage_file_error_eq git f e h⟩
    · exact ⟨f, stage_file_error_eq git f e h⟩

/-- C9: undo fails with UndoEmpty exactly when the history cursor is at the
start of the command sequence; redo fails with RedoEmpty exactly when the
cursor is at the end; otherwise each executes the corresponding command's
inverse (resp. forward) action against the backend ∧ moves the cursor. -/
theorem c9_undo_redo_empty_iff (r : RepoState) :
    ((Repo.undo r).2 = Except.error Error.UndoEmpty ↔ r.applied = []) ∧
    ((Repo.redo r).2 = Except.error Error.RedoEmpty ↔ r.redoable = []) ∧
    (∀ c rest, r.applied = c :: rest ->
      (Repo.undo r).1.applied = rest ∧
      (Repo.undo r).1.redoable = c :: r.redoable ∧
      (∀ g, Change.undo c r.git = Except.ok g ->
        (Repo.undo r).1.git = g ∧ (Repo.undo r).2 = Except.ok ()) ∧
      (∀ e, Change.undo c r.git = Except.error e ->
        (Repo.undo r).1.git = r.git ∧ (Repo.undo r).2 = Except.error e)) ∧
    (∀ c rest, r.redoable = c :: rest ->
      (Repo.redo r).1.redoable = rest ∧
      (Repo.redo r).1.applied = c :: r.applied ∧
      (∀ g, Change.apply c r.git = Except.ok g ->
        (Repo.redo r).1.git = g ∧ (Repo.redo r).2 = Except.ok ()) ∧
      (∀ e, Change.apply c r.git = Except.error e ->
        (Repo.redo r).1.git = r.git ∧ (Repo.redo r).2 = Except.error e)) := by
  obtain ⟨git, applied, redoable⟩ := r
  refine ⟨?_, ?_, ?_, ?_⟩
  · cases applied with
    | nil => simp [Repo.undo]
    | cons c rest =>
      rw [repo_undo_cons]
      constructor
      · intro h
        cases hcu : Change.undo c git with
        | ok g => rw [hcu] at h; simp at h
        | error e =>
          rw [hcu] at h
          dsimp only at h
          simp only [Except.error.injEq] at h
          obtain ⟨f, hf⟩ := change_action_error_eq c git e (Or.inr hcu)
          rw [hf] at h
          cases h
      · intro h
        cases h
  · cases redoable with
    | nil => simp [Repo.redo]
    | cons c rest =>
      rw [repo_redo_cons]
      constructor
      · intro h
        cases hca : Change.apply c git with
        | ok g => rw [hca] at h; simp at h
        | error e =>
          rw [hca] at h
          dsimp only at h
          simp only [Except.error.injEq] at h
          obtain ⟨f, hf⟩ := change_action_error_eq c git e (Or.inl hca)
          rw [hf] at h
          cases h
      · intro h
        cases h
  · intro c rest h
    cases h
    rw [repo_undo_cons]
    cases hcu : Change.undo c git with
    | ok g =>
      refine ⟨rfl, rfl, ?_, ?_⟩
      · intro g2 hg2
        cases hg2
        exact ⟨rfl, rfl⟩
      · intro e he
        cases he
    | error e =>
      refine ⟨rfl, rfl, ?_, ?_⟩
      · intro g2 hg2
        cases hg2
      · intro e2 he2
        cases he2
        exact ⟨rfl, rfl⟩
  · intro c rest h
    cases h
    rw [repo_redo_cons]
    cases hca : Change.apply c git with
    | ok g =>
      refine ⟨rfl, rfl, ?_, ?_⟩
      · intro g2 hg2
        cases hg2
        exact ⟨rfl, rfl⟩
      · intro e he
        cases he
    | error e =>
      refine ⟨rfl, rfl, ?_, ?_⟩
      · intro g2 hg2
        cases hg2
      · intro e2 he2
        cases he2
        exact ⟨rfl, rfl⟩

/-- Witness for C9: undo ∧ redo on an empty history report the empty-side
errors. -/
theorem c9_undo_redo_empty_iff_witness :
    (Repo.undo (RepoState.mk (Git.mk [] fun _ => false) [] [])).2
      = Except.error Error.UndoEmpty ∧
    (Repo.redo (RepoState.mk (Git.mk [] fun _ => false) [] [])).2
      = Except.error Error.RedoEmpty :=
  ⟨(c9_undo_redo_empty_iff (RepoState.mk (Git.mk [] fun _ => false) [] [])).1.mpr rfl,
   (c9_undo_redo_empty_iff
      (RepoState.mk (Git.mk [] fun _ => false) [] [])).2.1.mpr rfl⟩

/-- C10: path matching against the target uses a delta's new-side relative
path when present and falls back to the old side's path otherwise; for every
two-sided classification the target path handed to the extractor is taken
from the new-side FileRef (for a rename, the post-rename path), and the
operation fails with MissingPath when that FileRef has no relative path. -/
theorem c10_target_path_from_new_side :
    (∀ (d : DiffDelta) (p : String), d.new_file.path = some p →
      Internal.delta_path d = some p) ∧
    (∀ d : DiffDelta, d.new_file.path = none →
      Internal.delta_path d = d.old_file.path) ∧
    (∀ (headRes : Except Git2Error Tree)
       (bd : Option Tree → DiffOptions → List DiffEvent) (o n : File),
      n.rel_path = none →
      Internal.diff_details headRes bd (Meta.Modified o n)
          = Except.ok (Except.error (Error.MissingPath n)) ∧
      Internal.diff_details headRes bd (Meta.Renamed o n)
          = Except.ok (Except.error (Error.MissingPath n)) ∧
      Internal.diff_details headRes bd (Meta.Copied o n)
          = Except.ok (Except.error (Error.MissingPath n)) ∧
      Internal.diff_details headRes bd (Meta.Typechange o n)
          = Except.ok (Except.error (Error.MissingPath n)) ∧
      Internal.diff_details headRes bd (Meta.Conflicted o n)
          = Except.ok (Except.error (Error.MissingPath n))) ∧
    (∀ (headRes : Except Git2Error Tree)
       (bd : Option Tree → DiffOptions → List DiffEvent) (o n : File)
       (p : String),
      n.rel_path = some p →
      Internal.diff_details headRes bd (Meta.Modified o n)
          = Internal.diff_details_for_path headRes bd p ∧
      Internal.diff_details headRes bd (Meta.Renamed o n)
          = Internal.diff_details_for_path headRes bd p ∧
      Internal.diff_details headRes bd (Meta.Copied o n)
          = Internal.diff_details_for_path headRes bd p ∧
      Internal.diff_details headRes bd (Meta.Typechange o n)
          = Internal.diff_details_for_path headRes bd p ∧
      Internal.diff_details headRes bd (Meta.Conflicted o n)
          = Internal.diff_details_for_path headRes bd p) := by
  refine ⟨?_, ?_, ?_, ?_⟩
  · intro d p h
    unfold Internal.delta_path
    rw [h]
  · intro d h
    unfold Internal.delta_path
    rw [h]
  · intro headRes bd o n h
    refine ⟨?_, ?_, ?_, ?_, ?_⟩ <;>
      simp [Internal.diff_details, File.rel_path_required, h]
  · intro headRes bd o n p h
    refine ⟨?_, ?_, ?_, ?_, ?_⟩ <;>
      simp [Internal.diff_details, File.rel_path_required, h]

/-- Witness for C10: a renamed classification with a new-side path hands
that path to the extractor; one without a new-side path fails with
MissingPath. -/
theorem c10_target_path_from_new_side_witness :
    Internal.diff_details (Except.error ⟨ErrorCode.unbornBranch⟩) (fun _ _ => [])
        (Meta.Renamed ⟨some 4, some "old", 1⟩ ⟨some 5, some "new", 1⟩)
      = Internal.diff_details_for_path (Except.error ⟨ErrorCode.unbornBranch⟩)
          (fun _ _ => []) "new" ∧
    Internal.diff_details (Except.error ⟨ErrorCode.unbornBranch⟩) (fun _ _ => [])
        (Meta.Renamed ⟨some 4, some "old", 1⟩ ⟨some 5, none, 1⟩)
      = Except.ok (Except.error (Error.MissingPath ⟨some 5, none, 1⟩)) ∧
    Internal.delta_path ⟨DeltaStatus.renamed, 2, ⟨4, some "old", 1⟩, ⟨5, some "new", 1⟩⟩
      = some "new" :=
  ⟨(c10_target_path_from_new_side.2.2.2 (Except.error ⟨ErrorCode.unbornBranch⟩)
      (fun _ _ => []) ⟨some 4, some "old", 1⟩ ⟨some 5, some "new", 1⟩ "new" rfl).2.1,
   (c10_target_path_from_new_side.2.2.1 (Except.error ⟨ErrorCode.unbornBranch⟩)
      (fun _ _ => []) ⟨some 4, some "old", 1⟩ ⟨some 5, none, 1⟩ rfl).2.1,
   c10_target_path_from_new_side.1
     ⟨DeltaStatus.renamed, 2, ⟨4, some "old", 1⟩, ⟨5, some "new", 1⟩⟩ "new" rfl⟩

end Idgit
